import Mathlib

/-!
Verification of the UCX protocol performance-modeling module
(`src/ucp/proto/proto_init.c`): the performance-envelope builder,
the parallel-stage composer, the pipelined-range extender and the
capability-initialization orchestrator.

C `double` values are embedded as exact rationals (`ℚ`), `size_t` as `ℕ`.
Fatal assertions (`ucs_assert`, `ucs_assert_always`, `ucs_assertv`) are
embedded as a distinguished `assertFail` result; recoverable statuses as
`err`.  Growable-array appends, which in the C code may fail with
`UCS_ERR_NO_MEMORY`, are driven by an explicit allocation oracle: a list of
booleans consumed one per append (an exhausted oracle means every further
append succeeds).
-/

/-- UCS status codes used by this module. -/
inductive UcsStatus where
  | ok
  | no_memory
  | unsupported
  | invalid_param
deriving DecidableEq, Repr

/-- Result of a modelled C routine: a success value, a recoverable error
status, or a fatal assertion failure (`ucs_assert*`). -/
inductive UcsResult (α : Type) where
  | ok (a : α)
  | err (s : UcsStatus)
  | assertFail
deriving DecidableEq, Repr

/-- Whether a result is a success. -/
def UcsResult.isOk {α : Type} : UcsResult α → Bool
  | .ok _ => true
  | _ => false

/-- Allocation oracle: the head boolean decides whether the next
growable-array append succeeds; an exhausted oracle always succeeds. -/
def allocNext : List Bool → Bool × List Bool
  | [] => (true, [])
  | b :: rest => (b, rest)

/-- Modelled from the spec: external affine-cost arithmetic library (§6, §3).
`ucs_linear_func_t` is `\x7bc = intercept (seconds), m = slope (seconds/byte)\x7d`,
evaluated as `time(size) = slope * size + intercept`. -/
structure ucs_linear_func_t where
  c : ℚ
  m : ℚ
deriving DecidableEq, Repr

/-- Modelled from the spec: construct from (intercept, slope); the C
`ucs_linear_func_make(c, m)` argument order. -/
def ucs_linear_func_make (c m : ℚ) : ucs_linear_func_t := ⟨c, m⟩

/-- Modelled from the spec: the zero cost constant. -/
def UCS_LINEAR_FUNC_ZERO : ucs_linear_func_t := ucs_linear_func_make 0 0

/-- Modelled from the spec: evaluate the affine cost at a size. -/
def ucs_linear_func_apply (f : ucs_linear_func_t) (x : ℚ) : ℚ :=
  f.c + x * f.m

/-- Modelled from the spec: add two affine cost functions. -/
def ucs_linear_func_add (f1 f2 : ucs_linear_func_t) : ucs_linear_func_t :=
  ⟨f1.c + f2.c, f1.m + f2.m⟩

/-- Modelled from the spec: compose with an affine post-transform,
`(outer ∘ inner)(x) = outer(inner(x))`. -/
def ucs_linear_func_compose (outer inner : ucs_linear_func_t) :
    ucs_linear_func_t :=
  ⟨outer.m * inner.c + outer.c, outer.m * inner.m⟩

/-- Modelled from the spec: intersection abscissa of two affine functions;
`none` for parallel lines (the caller filters abscissas not strictly after
its reference point). -/
def ucs_linear_func_intersect (f1 f2 : ucs_linear_func_t) : Option ℚ :=
  if f1.m = f2.m then none else some ((f2.c - f1.c) / (f1.m - f2.m))

/-- `ucs_double_to_sizet` truncates a non-negative double to `size_t`.
The `SIZE_MAX` cap is absorbed by the `ucs_min` with the running midpoint
(always at most `range_end`) at the single call site. -/
def ucs_double_to_sizet (x : ℚ) : ℕ := (⌊x⌋).toNat

/-- One element of a performance envelope: the winning candidate index and
the inclusive upper bound of the sub-range it wins. -/
structure ucp_proto_perf_envelope_elem_t where
  index : ℕ
  max_length : ℕ
deriving DecidableEq, Repr

/-- `UCP_PROTO_MSGLEN_EPSILON`: candidates are compared at
`start + 0.5` to break ties at exact intersection points. -/
def UCP_PROTO_MSGLEN_EPSILON : ℚ := 1 / 2

/-- The best-candidate scan of `ucp_proto_perf_envelope_make`
(lines 102-113): iterate the active indices in ascending order keeping a
running best, replacing it when `(curr.result < best.result) == convex`.
`none` as the running best models `best.index == UINT_MAX`. -/
def ucp_proto_find_best (perf : List ucs_linear_func_t) (x : ℚ)
    (convex : Bool) : List ℕ → Option (ℕ × ℚ) → Option (ℕ × ℚ)
  | [], best => best
  | i :: rest, best =>
      let r := ucs_linear_func_apply (perf.getD i UCS_LINEAR_FUNC_ZERO) x
      match best with
      | none => ucp_proto_find_best perf x convex rest (some (i, r))
      | some (bi, br) =>
          if decide (r < br) = convex then
            ucp_proto_find_best perf x convex rest (some (i, r))
          else
            ucp_proto_find_best perf x convex rest (some (bi, br))

/-- The midpoint scan of `ucp_proto_perf_envelope_make` (lines 126-145):
over the remaining active indices, take the smallest truncated intersection
abscissa with the best trend that lies strictly after `start`, starting
from `range_end`. -/
def ucp_proto_find_midpoint (perf : List ucs_linear_func_t)
    (best : ucs_linear_func_t) (start : ℕ) :
    List ℕ → ℕ → ℕ
  | [], midpoint => midpoint
  | i :: rest, midpoint =>
      let midpoint' :=
        match ucs_linear_func_intersect (perf.getD i UCS_LINEAR_FUNC_ZERO)
            best with
        | some x_intersect =>
            if (start : ℚ) < x_intersect then
              min (ucs_double_to_sizet x_intersect) midpoint
            else midpoint
        | none => midpoint
      ucp_proto_find_midpoint perf best start rest midpoint'

/-- The do-while loop of `ucp_proto_perf_envelope_make` (lines 98-155).
`fuel` is initialized to the number of candidates; since every iteration
removes exactly one index from the active set, `fuel = 0` coincides with an
empty active set, i.e. the `ucs_assert(mask != 0)` failure. -/
def ucp_proto_perf_envelope_loop (perf : List ucs_linear_func_t)
    (range_end : ℕ) (convex : Bool) :
    ℕ → List ℕ → ℕ → List ucp_proto_perf_envelope_elem_t → List Bool →
    UcsResult (List ucp_proto_perf_envelope_elem_t × List Bool)
  | 0, _, _, _, _ => UcsResult.assertFail
  | fuel + 1, active, start, acc, al =>
      match ucp_proto_find_best perf ((start : ℚ) + UCP_PROTO_MSGLEN_EPSILON)
          convex active none with
      | none => UcsResult.assertFail
      | some (bi, _) =>
          let active' := active.erase bi
          let midpoint := ucp_proto_find_midpoint perf
              (perf.getD bi UCS_LINEAR_FUNC_ZERO) start active' range_end
          match allocNext al with
          | (false, _) => UcsResult.err UcsStatus.no_memory
          | (true, al') =>
              let acc' := acc ++ [⟨bi, midpoint⟩]
              if midpoint < range_end then
                ucp_proto_perf_envelope_loop perf range_end convex fuel
                  active' (midpoint + 1) acc' al'
              else
                UcsResult.ok (acc', al')

/-- The hard candidate-count precondition of the envelope builder:
`ucs_assert_always(perf_list_length < 64)` (line 95). -/
def ucp_proto_perf_envelope_count_ok
    (perf_list : List ucs_linear_func_t) : Bool :=
  perf_list.length < 64

/-- `ucp_proto_perf_envelope_make` (lines 76-158): partition
`[range_start, range_end]` into sub-ranges each won by one affine
candidate (lower envelope when `convex`, upper otherwise).  The initial
active set is the bit-mask `UCS_MASK(perf_list_length)`, i.e. all indices
in ascending order. -/
def ucp_proto_perf_envelope_make (al : List Bool)
    (perf_list : List ucs_linear_func_t) (range_start range_end : ℕ)
    (convex : Bool) :
    UcsResult (List ucp_proto_perf_envelope_elem_t × List Bool) :=
  if ucp_proto_perf_envelope_count_ok perf_list then
    ucp_proto_perf_envelope_loop perf_list range_end convex
      perf_list.length (List.range perf_list.length) range_start [] al
  else
    UcsResult.assertFail

/-- A capability range: inclusive upper size bound plus the SINGLE and
MULTI affine cost estimates (`perf[UCP_PROTO_PERF_TYPE_SINGLE]` and
`perf[UCP_PROTO_PERF_TYPE_MULTI]`). -/
structure ucp_proto_perf_range_t where
  max_length : ℕ
  perf_single : ucs_linear_func_t
  perf_multi : ucs_linear_func_t
deriving DecidableEq, Repr

/-- A protocol's capability record: selector tie-break inputs, minimum
supported length, and the ordered capability ranges (`num_ranges` is the
length of `ranges`). -/
structure ucp_proto_caps_t where
  cfg_thresh : ℕ
  cfg_priority : ℕ
  min_length : ℕ
  ranges : List ucp_proto_perf_range_t
deriving DecidableEq, Repr

/-- The per-stage loop of `ucp_proto_init_parallel_stages` (lines 189-205):
accumulate the sum of the stages' SINGLE costs, and append to the stage
list each stage's adjusted MULTI rate
`(c = multi.c, m = multi.m + multi.c / frag_size)`; every append consumes
one allocation-oracle entry and fails with `UCS_ERR_NO_MEMORY` when the
oracle says so. -/
def ucp_proto_parallel_stage_list (frag_size : ℕ) :
    List ucp_proto_perf_range_t → ucs_linear_func_t →
    List ucs_linear_func_t → List Bool →
    UcsResult (List ucs_linear_func_t × ucs_linear_func_t × List Bool)
  | [], sum_perf, acc, al => UcsResult.ok (acc, sum_perf, al)
  | stage :: rest, sum_perf, acc, al =>
      let sum_perf' := ucs_linear_func_add sum_perf stage.perf_single
      match allocNext al with
      | (false, _) => UcsResult.err UcsStatus.no_memory
      | (true, al') =>
          ucp_proto_parallel_stage_list frag_size rest sum_perf'
            (acc ++ [⟨stage.perf_multi.c,
                      stage.perf_multi.m +
                        stage.perf_multi.c / (frag_size : ℚ)⟩]) al'

/-- The range-emitting loop of `ucp_proto_init_parallel_stages`
(lines 214-234): for each envelope element append one capability range
whose SINGLE cost is the bias-composed stage sum and whose MULTI cost is
the bias-composed adjusted rate of the winning stage; the cursor
(`range_start`) advances to `max_length + 1` after each element.  Returns
the updated record and the final cursor. -/
def ucp_proto_parallel_append_ranges (bias_func sum_perf : ucs_linear_func_t)
    (stage_list : List ucs_linear_func_t) :
    List ucp_proto_perf_envelope_elem_t → ucp_proto_caps_t → ℕ →
    ucp_proto_caps_t × ℕ
  | [], caps, cursor => (caps, cursor)
  | elem :: rest, caps, cursor =>
      let range : ucp_proto_perf_range_t :=
        ⟨elem.max_length,
         ucs_linear_func_compose bias_func sum_perf,
         ucs_linear_func_compose bias_func
           (stage_list.getD elem.index UCS_LINEAR_FUNC_ZERO)⟩
      ucp_proto_parallel_append_ranges bias_func sum_perf stage_list rest
        ⟨caps.cfg_thresh, caps.cfg_priority, caps.min_length,
         caps.ranges ++ [range]⟩ (elem.max_length + 1)

/-- `ucp_proto_init_parallel_stages` (lines 160-243): compose the stages'
costs over `[range_start, range_end]` and append the resulting capability
ranges.  Returns the status (carrying the remaining allocation oracle on
success) together with the capability record as mutated by the call; on a
recoverable error the record is returned as it stood at the failure
point.  The final `ucs_assertv(range_start == range_end + 1)` is the
cursor check. -/
def ucp_proto_init_parallel_stages (al : List Bool)
    (range_start range_end frag_size : ℕ) (bias : ℚ)
    (stages : List ucp_proto_perf_range_t) (caps : ucp_proto_caps_t) :
    UcsResult (List Bool) × ucp_proto_caps_t :=
  let bias_func := ucs_linear_func_make 0 (1 - bias)
  match ucp_proto_parallel_stage_list frag_size stages
      UCS_LINEAR_FUNC_ZERO [] al with
  | UcsResult.err s => (UcsResult.err s, caps)
  | UcsResult.assertFail => (UcsResult.assertFail, caps)
  | UcsResult.ok (stage_list, sum_perf, al1) =>
      match ucp_proto_perf_envelope_make al1 stage_list range_start
          range_end false with
      | UcsResult.err s => (UcsResult.err s, caps)
      | UcsResult.assertFail => (UcsResult.assertFail, caps)
      | UcsResult.ok (concave, al2) =>
          let out := ucp_proto_parallel_append_ranges bias_func sum_perf
            stage_list concave caps range_start
          if out.2 = range_end + 1 then (UcsResult.ok al2, out.1)
          else (UcsResult.assertFail, out.1)

/-- `ucp_proto_common_add_ppln_range` (lines 32-63): append one pipelined
range extending `frag_range` up to `max_length`: its SINGLE cost is the
prior MULTI rate plus the constant first-fragment overhead
`SINGLE(frag_range.max_length) - MULTI(frag_range.max_length)`, its MULTI
cost is the prior MULTI rate unchanged. -/
def ucp_proto_common_add_ppln_range (caps : ucp_proto_caps_t)
    (frag_range : ucp_proto_perf_range_t) (max_length : ℕ) :
    ucp_proto_caps_t :=
  let frag_overhead :=
    ucs_linear_func_apply frag_range.perf_single
        (frag_range.max_length : ℚ) -
      ucs_linear_func_apply frag_range.perf_multi
        (frag_range.max_length : ℚ)
  ⟨caps.cfg_thresh, caps.cfg_priority, caps.min_length,
   caps.ranges ++
     [⟨max_length,
       ucs_linear_func_add frag_range.perf_multi
         (ucs_linear_func_make frag_overhead 0),
       frag_range.perf_multi⟩]⟩

/-- Transport performance metrics (`ucp_proto_common_tl_perf_t`). -/
structure ucp_proto_common_tl_perf_t where
  send_pre_overhead : ℚ
  send_post_overhead : ℚ
  recv_overhead : ℚ
  latency : ℚ
  sys_latency : ℚ
  bandwidth : ℚ
  max_frag : ℕ
  min_length : ℕ
deriving DecidableEq, Repr

/-- Protocol-initialization configuration
(`ucp_proto_common_init_params_t` together with the fields of the
embedded select parameter that this module reads).  The
`UCP_PROTO_COMMON_INIT_FLAG_*` bits become booleans, and
`op_flag_fast_cmpl` is the `UCP_OP_ATTR_FLAG_FAST_CMPL` bit of the
operation-attribute mask derived from `select_param->op_flags`.
`rkey_mem_type` is `none` when `rkey_config_key` is `NULL`. -/
structure ucp_proto_common_init_params_t where
  flag_remote_access : Bool
  flag_recv_zcopy : Bool
  flag_send_zcopy : Bool
  flag_rkey_ptr : Bool
  flag_response : Bool
  flag_single_frag : Bool
  op_flag_fast_cmpl : Bool
  mem_type : ℕ
  memtype_op : ℕ
  rkey_mem_type : Option ℕ
  hdr_size : ℕ
  max_length : ℕ
  min_length : ℕ
  cfg_thresh : ℕ
  cfg_priority : ℕ

/-- `UCS_MEMORY_TYPE_HOST` (memory types are abstract identifiers here). -/
def UCS_MEMORY_TYPE_HOST : ℕ := 0

/-- `UCT_EP_OP_PUT_SHORT`, the fixed copy-operation identifier used for the
receive-side copy estimate (an abstract identifier here). -/
def UCT_EP_OP_PUT_SHORT : ℕ := 8

/-- Modelled from the spec: the external transport-level estimators (§6).
`memreg_time` is `ucp_proto_common_memreg_time`, an affine
registration-cost estimate from the memory-domain map; `buffer_copy_time`
is `ucp_proto_common_buffer_copy_time`, returning a status and an affine
copy-cost estimate from a label, source and destination memory types and a
copy-operation identifier. -/
structure ucp_proto_common_estimators where
  memreg_time : ℕ → ucs_linear_func_t
  buffer_copy_time : String → ℕ → ℕ → ℕ → UcsStatus × ucs_linear_func_t

/-- `ucp_proto_common_init_base_caps` (lines 65-74): seed the static
capability fields and reset the range count to zero. -/
def ucp_proto_common_init_base_caps
    (params : ucp_proto_common_init_params_t) (min_length : ℕ) :
    ucp_proto_caps_t :=
  ⟨params.cfg_thresh, params.cfg_priority,
   max params.min_length min_length, []⟩

/-- The sender-overhead computation of `ucp_proto_common_init_caps`
(lines 276-288): registration estimate for zero-copy sends, zero for
direct remote-key pointer access, otherwise the host-to-source buffer-copy
estimate whose failure status is returned verbatim; the non-estimator path
asserts `reg_md_map == 0`. -/
def ucp_proto_common_init_caps_send_overhead
    (est : ucp_proto_common_estimators)
    (params : ucp_proto_common_init_params_t) (reg_md_map : ℕ) :
    UcsResult ucs_linear_func_t :=
  if params.flag_send_zcopy then
    UcsResult.ok (est.memreg_time reg_md_map)
  else if params.flag_rkey_ptr then
    UcsResult.ok UCS_LINEAR_FUNC_ZERO
  else if reg_md_map ≠ 0 then
    UcsResult.assertFail
  else
    let r := est.buffer_copy_time "send-copy" UCS_MEMORY_TYPE_HOST
      params.mem_type params.memtype_op
    if r.1 = UcsStatus.ok then UcsResult.ok r.2 else UcsResult.err r.1

/-- The receiver-overhead computation of `ucp_proto_common_init_caps`
(lines 325-358): zero for one-sided remote access or fast-completion
without response; otherwise the registration estimate (receive zero-copy)
or the host-to-receive-memory buffer-copy estimate, whose status the code
ignores (the out-value stays zero-initialized on failure); finally
`recv_overhead` is added to the intercept unless remote access. -/
def ucp_proto_common_init_caps_recv_overhead
    (est : ucp_proto_common_estimators)
    (params : ucp_proto_common_init_params_t)
    (perf : ucp_proto_common_tl_perf_t) (reg_md_map : ℕ) :
    ucs_linear_func_t :=
  if params.flag_remote_access ∨
      (params.op_flag_fast_cmpl ∧ ¬params.flag_response) then
    UCS_LINEAR_FUNC_ZERO
  else
    let base :=
      if params.flag_recv_zcopy then
        est.memreg_time reg_md_map
      else
        let recv_mem_type :=
          match params.rkey_mem_type with
          | none => params.mem_type
          | some t => t
        let r := est.buffer_copy_time "recv-copy" UCS_MEMORY_TYPE_HOST
          recv_mem_type UCT_EP_OP_PUT_SHORT
        if r.1 = UcsStatus.ok then r.2 else UCS_LINEAR_FUNC_ZERO
    if ¬params.flag_remote_access then
      ⟨base.c + perf.recv_overhead, base.m⟩
    else base

/-- The per-stage cost construction of `ucp_proto_common_init_caps`
(lines 273-361): build the send, transfer and receive stage SINGLE/MULTI
cost pairs from the transport metrics and flags (the `max_length` fields
of these transient stage records are unused and set to zero). -/
def ucp_proto_common_init_caps_stage_perfs
    (est : ucp_proto_common_estimators)
    (params : ucp_proto_common_init_params_t)
    (perf : ucp_proto_common_tl_perf_t) (reg_md_map : ℕ) :
    UcsResult (ucp_proto_perf_range_t × ucp_proto_perf_range_t ×
      ucp_proto_perf_range_t) :=
  match ucp_proto_common_init_caps_send_overhead est params reg_md_map with
  | UcsResult.err s => UcsResult.err s
  | UcsResult.assertFail => UcsResult.assertFail
  | UcsResult.ok send_overhead0 =>
      let send_overhead : ucs_linear_func_t :=
        ⟨send_overhead0.c + perf.send_pre_overhead, send_overhead0.m⟩
      let send_single := send_overhead
      let send_multi : ucs_linear_func_t :=
        ⟨send_overhead.c + perf.send_post_overhead, send_overhead.m⟩
      let xfer_time :=
        if params.op_flag_fast_cmpl ∧ ¬params.flag_send_zcopy then
          UCS_LINEAR_FUNC_ZERO
        else
          ucs_linear_func_make 0 (1 / perf.bandwidth)
      let xfer_single : ucs_linear_func_t :=
        ⟨xfer_time.c + (perf.latency + perf.sys_latency), xfer_time.m⟩
      let needs_ack := params.flag_response ∨
        (params.op_flag_fast_cmpl ∧ params.flag_send_zcopy)
      let xfer_single' :=
        if needs_ack then
          (⟨xfer_single.c + perf.latency, xfer_single.m⟩ :
            ucs_linear_func_t)
        else xfer_single
      let send_single' :=
        if needs_ack then
          (⟨send_single.c + perf.send_post_overhead, send_single.m⟩ :
            ucs_linear_func_t)
        else send_single
      let recv_overhead :=
        ucp_proto_common_init_caps_recv_overhead est params perf reg_md_map
      UcsResult.ok
        (⟨0, send_single', send_multi⟩,
         ⟨0, xfer_single', xfer_time⟩,
         ⟨0, recv_overhead, recv_overhead⟩)

/-- `ucp_proto_common_init_caps` (lines 245-391): the orchestrator.
Checks the remote-access-implies-receive-zero-copy assertion, builds the
three stage cost pairs, seeds the base capability record, composes the
stages over `[0, frag_size]`, and when the fragment size is below the
protocol maximum (and fragmentation is allowed) appends the pipelined
range. -/
def ucp_proto_common_init_caps (est : ucp_proto_common_estimators)
    (al : List Bool) (params : ucp_proto_common_init_params_t)
    (perf : ucp_proto_common_tl_perf_t) (reg_md_map : ℕ) :
    UcsResult (ucp_proto_caps_t × List Bool) :=
  if params.flag_remote_access ∧ ¬params.flag_recv_zcopy then
    UcsResult.assertFail
  else
    match ucp_proto_common_init_caps_stage_perfs est params perf
        reg_md_map with
    | UcsResult.err s => UcsResult.err s
    | UcsResult.assertFail => UcsResult.assertFail
    | UcsResult.ok (send_perf, xfer_perf, recv_perf) =>
        if perf.max_frag < params.hdr_size then
          UcsResult.assertFail
        else
          let frag_size :=
            min params.max_length (perf.max_frag - params.hdr_size)
          let caps0 := ucp_proto_common_init_base_caps params
            perf.min_length
          match ucp_proto_init_parallel_stages al 0 frag_size frag_size 0
              [send_perf, xfer_perf, recv_perf] caps0 with
          | (UcsResult.err s, _) => UcsResult.err s
          | (UcsResult.assertFail, _) => UcsResult.assertFail
          | (UcsResult.ok al', caps1) =>
              let caps2 :=
                if frag_size < params.max_length ∧
                    ¬params.flag_single_frag then
                  ucp_proto_common_add_ppln_range caps1
                    (caps1.ranges.getLastD
                      ⟨0, UCS_LINEAR_FUNC_ZERO, UCS_LINEAR_FUNC_ZERO⟩)
                    params.max_length
                else caps1
              UcsResult.ok (caps2, al')

/-! ## Concrete fixtures used by witnesses and counterexamples -/

/-- Estimators whose receive-copy estimate fails while every other
estimate succeeds. -/
def estRecvFail : ucp_proto_common_estimators :=
  ⟨fun _ => UCS_LINEAR_FUNC_ZERO,
   fun name _ _ _ =>
     if name = "recv-copy" then (UcsStatus.unsupported, UCS_LINEAR_FUNC_ZERO)
     else (UcsStatus.ok, UCS_LINEAR_FUNC_ZERO)⟩

/-- Estimators whose send-copy estimate fails while every other estimate
succeeds. -/
def estSendFail : ucp_proto_common_estimators :=
  ⟨fun _ => UCS_LINEAR_FUNC_ZERO,
   fun name _ _ _ =>
     if name = "send-copy" then (UcsStatus.unsupported, UCS_LINEAR_FUNC_ZERO)
     else (UcsStatus.ok, UCS_LINEAR_FUNC_ZERO)⟩

/-- Estimators that always succeed with a zero cost estimate. -/
def estOk : ucp_proto_common_estimators :=
  ⟨fun _ => UCS_LINEAR_FUNC_ZERO,
   fun _ _ _ _ => (UcsStatus.ok, UCS_LINEAR_FUNC_ZERO)⟩

/-- A zero-copy-send configuration that takes the receive buffer-copy
branch (response required, no receive zero-copy, no remote access). -/
def paramsZcopySend : ucp_proto_common_init_params_t :=
  ⟨false, false, true, false, true, false, false, 0, 0, none, 0, 4, 0, 0, 0⟩

/-- A host buffer-copy send configuration (neither zero-copy nor
remote-key pointer access). -/
def paramsHostCopy : ucp_proto_common_init_params_t :=
  ⟨false, false, false, false, true, false, false, 0, 0, none, 0, 4, 0, 0, 0⟩

/-- A configuration with remote access but without receive zero-copy. -/
def paramsRemoteNoZcopy : ucp_proto_common_init_params_t :=
  ⟨true, false, false, false, false, false, false, 0, 0, none, 0, 4, 0, 0, 0⟩

/-- Unit transport metrics: bandwidth 1, all overheads and latencies 0. -/
def perfUnit : ucp_proto_common_tl_perf_t :=
  ⟨0, 0, 0, 0, 0, 1, 10, 0⟩

/-- A stage with affine cost `1 + x` for both SINGLE and MULTI. -/
def stageA : ucp_proto_perf_range_t := ⟨0, ⟨1, 1⟩, ⟨1, 1⟩⟩

/-- A stage with constant cost `2` for both SINGLE and MULTI. -/
def stageB : ucp_proto_perf_range_t := ⟨0, ⟨2, 0⟩, ⟨2, 0⟩⟩

/-- An empty capability record. -/
def capsEmpty : ucp_proto_caps_t := ⟨0, 0, 0, []⟩

/-- The capability record produced by composing `stageA` and `stageB`
over `[0, 8]` with fragment size 8 and bias 0. -/
def capsBias0 : ucp_proto_caps_t :=
  ⟨0, 0, 0, [⟨1, ⟨3, 1⟩, ⟨2, 1/4⟩⟩, ⟨8, ⟨3, 1⟩, ⟨1, 9/8⟩⟩]⟩

/-! ## Theorems -/

/-- C5: `ucp_proto_common_add_ppln_range` appends exactly one range with
the given upper bound, whose MULTI cost is the prior range's MULTI cost
unchanged and whose SINGLE cost is the prior MULTI cost plus the constant
`frag_overhead = SINGLE(R.max_length) - MULTI(R.max_length)`; when the
prior SINGLE and MULTI costs agree at the boundary the new SINGLE cost is
identical to the steady per-fragment rate. -/
theorem ucp_proto_common_add_ppln_range_spec (caps : ucp_proto_caps_t)
    (R : ucp_proto_perf_range_t) (L : ℕ) :
    let r' := (ucp_proto_common_add_ppln_range caps R L).ranges.getLastD
      ⟨0, UCS_LINEAR_FUNC_ZERO, UCS_LINEAR_FUNC_ZERO⟩
    ((ucp_proto_common_add_ppln_range caps R L).ranges.length =
        caps.ranges.length + 1) ∧
    ((ucp_proto_common_add_ppln_range caps R L).ranges.take
        caps.ranges.length = caps.ranges) ∧
    r'.max_length = L ∧
    r'.perf_multi = R.perf_multi ∧
    (∀ x : ℚ, ucs_linear_func_apply r'.perf_single x =
        ucs_linear_func_apply R.perf_multi x +
          (ucs_linear_func_apply R.perf_single (R.max_length : ℚ) -
            ucs_linear_func_apply R.perf_multi (R.max_length : ℚ))) ∧
    (ucs_linear_func_apply R.perf_single (R.max_length : ℚ) =
        ucs_linear_func_apply R.perf_multi (R.max_length : ℚ) →
      r'.perf_single = R.perf_multi) := by
  intro r'
  have hr' : r' = ⟨L,
      ucs_linear_func_add R.perf_multi
        (ucs_linear_func_make
          (ucs_linear_func_apply R.perf_single (R.max_length : ℚ) -
            ucs_linear_func_apply R.perf_multi (R.max_length : ℚ)) 0),
      R.perf_multi⟩ := by
    simp [r', ucp_proto_common_add_ppln_range, List.getLastD_concat]
  refine ⟨?_, ?_, ?_, ?_, ?_, ?_⟩
  · simp [ucp_proto_common_add_ppln_range]
  · simp [ucp_proto_common_add_ppln_range, List.take_left]
  · rw [hr']
  · rw [hr']
  · intro x
    rw [hr']
    simp [ucs_linear_func_add, ucs_linear_func_make, ucs_linear_func_apply]
    ring
  · intro heq
    rw [hr']
    simp [ucs_linear_func_add, ucs_linear_func_make, heq]

/-- C5 witness: a fragment range with equal SINGLE and MULTI costs at its
boundary yields a pipelined range whose SINGLE cost is the MULTI rate. -/
theorem ucp_proto_common_add_ppln_range_spec_witness :
    let r' := (ucp_proto_common_add_ppln_range capsEmpty stageA 10).ranges.getLastD
      ⟨0, UCS_LINEAR_FUNC_ZERO, UCS_LINEAR_FUNC_ZERO⟩
    ((ucp_proto_common_add_ppln_range capsEmpty stageA 10).ranges.length =
        capsEmpty.ranges.length + 1) ∧
    ((ucp_proto_common_add_ppln_range capsEmpty stageA 10).ranges.take
        capsEmpty.ranges.length = capsEmpty.ranges) ∧
    r'.max_length = 10 ∧
    r'.perf_multi = stageA.perf_multi ∧
    (∀ x : ℚ, ucs_linear_func_apply r'.perf_single x =
        ucs_linear_func_apply stageA.perf_multi x +
          (ucs_linear_func_apply stageA.perf_single (stageA.max_length : ℚ) -
            ucs_linear_func_apply stageA.perf_multi (stageA.max_length : ℚ))) ∧
    (ucs_linear_func_apply stageA.perf_single (stageA.max_length : ℚ) =
        ucs_linear_func_apply stageA.perf_multi (stageA.max_length : ℚ) →
      r'.perf_single = stageA.perf_multi) :=
  ucp_proto_common_add_ppln_range_spec capsEmpty stageA 10

/-- C6 (amended): at most 63 candidates satisfy the envelope builder's
hard candidate-count precondition, while 64 or more candidates (in
particular 65) make the always-enabled assertion fire. -/
theorem ucp_proto_perf_envelope_count_spec
    (perf_list : List ucs_linear_func_t) (al : List Bool) (rs re : ℕ)
    (cv : Bool) :
    (perf_list.length ≤ 63 →
      ucp_proto_perf_envelope_count_ok perf_list = true) ∧
    (64 ≤ perf_list.length →
      ucp_proto_perf_envelope_count_ok perf_list = false ∧
      ucp_proto_perf_envelope_make al perf_list rs re cv =
        UcsResult.assertFail) := by
  constructor
  · intro h
    simp only [ucp_proto_perf_envelope_count_ok, decide_eq_true_eq]
    omega
  · intro h
    have hc : ucp_proto_perf_envelope_count_ok perf_list = false := by
      simp only [ucp_proto_perf_envelope_count_ok, decide_eq_false_iff_not]
      omega
    refine ⟨hc, ?_⟩
    simp [ucp_proto_perf_envelope_make, hc]

/-- C6 counterexample: 64 candidates — allowed by the claim's "at most 64"
precondition — already violate the code's `perf_list_length < 64`
assertion and fail fast. -/
theorem ucp_proto_perf_envelope_count_counterexample :
    (List.replicate 64 UCS_LINEAR_FUNC_ZERO).length ≤ 64 ∧
    ucp_proto_perf_envelope_count_ok
      (List.replicate 64 UCS_LINEAR_FUNC_ZERO) = false ∧
    ucp_proto_perf_envelope_make [] (List.replicate 64 UCS_LINEAR_FUNC_ZERO)
      0 1 false = UcsResult.assertFail := by
  refine ⟨by decide, by decide, by decide⟩

/-- C6 witness: 63 candidates pass the count precondition and 65 fail
fast. -/
theorem ucp_proto_perf_envelope_count_spec_witness :
    ((List.replicate 63 UCS_LINEAR_FUNC_ZERO).length ≤ 63 ∧
      ucp_proto_perf_envelope_count_ok
        (List.replicate 63 UCS_LINEAR_FUNC_ZERO) = true) ∧
    (64 ≤ (List.replicate 65 UCS_LINEAR_FUNC_ZERO).length ∧
      ucp_proto_perf_envelope_count_ok
        (List.replicate 65 UCS_LINEAR_FUNC_ZERO) = false ∧
      ucp_proto_perf_envelope_make []
        (List.replicate 65 UCS_LINEAR_FUNC_ZERO) 0 1 false =
        UcsResult.assertFail) :=
  ⟨⟨by decide,
    (ucp_proto_perf_envelope_count_spec
      (List.replicate 63 UCS_LINEAR_FUNC_ZERO) [] 0 1 false).1 (by decide)⟩,
   ⟨by decide,
    (ucp_proto_perf_envelope_count_spec
      (List.replicate 65 UCS_LINEAR_FUNC_ZERO) [] 0 1 false).2 (by decide)⟩⟩

/-- C8: remote access without receive zero-copy is a fatal precondition
violation of the orchestrator. -/
theorem ucp_proto_common_init_caps_remote_access_assert
    (est : ucp_proto_common_estimators) (al : List Bool)
    (params : ucp_proto_common_init_params_t)
    (perf : ucp_proto_common_tl_perf_t) (reg_md_map : ℕ)
    (h1 : params.flag_remote_access = true)
    (h2 : params.flag_recv_zcopy = false) :
    ucp_proto_common_init_caps est al params perf reg_md_map =
      UcsResult.assertFail := by
  unfold ucp_proto_common_init_caps
  rw [h1, h2]
  simp

/-- C8 witness: a concrete remote-access flag set without receive
zero-copy assert-fails. -/
theorem ucp_proto_common_init_caps_remote_access_assert_witness :
    paramsRemoteNoZcopy.flag_remote_access = true ∧
    paramsRemoteNoZcopy.flag_recv_zcopy = false ∧
    ucp_proto_common_init_caps estOk [] paramsRemoteNoZcopy perfUnit 0 =
      UcsResult.assertFail :=
  ⟨rfl, rfl,
   ucp_proto_common_init_caps_remote_access_assert estOk []
     paramsRemoteNoZcopy perfUnit 0 rfl rfl⟩

/-- C9: whenever the parallel-stage composer returns a recoverable error,
the capability record is returned exactly as it was passed in — every
failure point precedes the first capability-range write. -/
theorem ucp_proto_init_parallel_stages_error_preserves_caps
    (al : List Bool) (rs re fs : ℕ) (bias : ℚ)
    (stages : List ucp_proto_perf_range_t) (caps : ucp_proto_caps_t)
    (s : UcsStatus) (caps' : ucp_proto_caps_t)
    (h : ucp_proto_init_parallel_stages al rs re fs bias stages caps =
      (UcsResult.err s, caps')) :
    caps' = caps := by
  unfold ucp_proto_init_parallel_stages at h
  rcases hsl : ucp_proto_parallel_stage_list fs stages UCS_LINEAR_FUNC_ZERO
      [] al with a | s' | _
  · rcases a with ⟨stage_list, sum_perf, al1⟩
    rw [hsl] at h
    dsimp only at h
    rcases henv : ucp_proto_perf_envelope_make al1 stage_list rs re false
        with b | s'' | _
    · rcases b with ⟨concave, al2⟩
      rw [henv] at h
      dsimp only at h
      split at h
      · injection h with h1 h2
        exact UcsResult.noConfusion h1
      · injection h with h1 h2
        exact UcsResult.noConfusion h1
    · rw [henv] at h
      dsimp only at h
      injection h with h1 h2
      exact h2.symm
    · rw [henv] at h
      dsimp only at h
      injection h with h1 h2
      exact UcsResult.noConfusion h1
  · rw [hsl] at h
    dsimp only at h
    injection h with h1 h2
    exact h2.symm
  · rw [hsl] at h
    dsimp only at h
    injection h with h1 h2
    exact UcsResult.noConfusion h1

/-- C9 witness: a failing first append leaves a non-empty capability
record untouched. -/
theorem ucp_proto_init_parallel_stages_error_preserves_caps_witness :
    ucp_proto_init_parallel_stages [false] 0 1 1 0 [stageA] capsBias0 =
      (UcsResult.err UcsStatus.no_memory, capsBias0) ∧
    capsBias0 = capsBias0 :=
  ⟨rfl,
   ucp_proto_init_parallel_stages_error_preserves_caps [false] 0 1 1 0
     [stageA] capsBias0 UcsStatus.no_memory capsBias0 rfl⟩

/-- C1 (amended): a failure of the send-stage buffer-copy estimator is
propagated verbatim by the orchestrator, but the receive-stage buffer-copy
estimator's status is ignored — on failure the receive overhead silently
falls back to the zero-initialized estimate plus `recv_overhead`, with no
error path out of the orchestrator. -/
theorem ucp_proto_common_init_caps_estimator_status :
    (∀ (est : ucp_proto_common_estimators) (al : List Bool)
        (params : ucp_proto_common_init_params_t)
        (perf : ucp_proto_common_tl_perf_t) (reg_md_map : ℕ),
      params.flag_remote_access = false →
      params.flag_send_zcopy = false →
      params.flag_rkey_ptr = false →
      reg_md_map = 0 →
      (est.buffer_copy_time "send-copy" UCS_MEMORY_TYPE_HOST
        params.mem_type params.memtype_op).1 ≠ UcsStatus.ok →
      ucp_proto_common_init_caps est al params perf reg_md_map =
        UcsResult.err (est.buffer_copy_time "send-copy" UCS_MEMORY_TYPE_HOST
          params.mem_type params.memtype_op).1) ∧
    (∀ (est : ucp_proto_common_estimators)
        (params : ucp_proto_common_init_params_t)
        (perf : ucp_proto_common_tl_perf_t) (reg_md_map : ℕ),
      params.flag_remote_access = false →
      (params.op_flag_fast_cmpl = true → params.flag_response = true) →
      params.flag_recv_zcopy = false →
      (est.buffer_copy_time "recv-copy" UCS_MEMORY_TYPE_HOST
        (match params.rkey_mem_type with
         | none => params.mem_type
         | some t => t) UCT_EP_OP_PUT_SHORT).1 ≠ UcsStatus.ok →
      ucp_proto_common_init_caps_recv_overhead est params perf reg_md_map =
        ⟨perf.recv_overhead, 0⟩) := by
  constructor
  · intro est al params perf reg_md_map h_ra h_szc h_rkey h_reg h_fail
    have hso : ucp_proto_common_init_caps_send_overhead est params
        reg_md_map = UcsResult.err (est.buffer_copy_time "send-copy"
          UCS_MEMORY_TYPE_HOST params.mem_type params.memtype_op).1 := by
      unfold ucp_proto_common_init_caps_send_overhead
      rw [h_szc, h_rkey, h_reg]
      simp [h_fail]
    unfold ucp_proto_common_init_caps
      ucp_proto_common_init_caps_stage_perfs
    rw [h_ra, hso]
    simp
  · intro est params perf reg_md_map h_ra h_fc h_rz h_fail
    unfold ucp_proto_common_init_caps_recv_overhead
    rw [h_ra, h_rz]
    have hcond : ¬(False ∨ (params.op_flag_fast_cmpl = true ∧
        ¬params.flag_response = true)) := by
      rintro (h | ⟨ha, hb⟩)
      · exact h
      · exact hb (h_fc ha)
    simp only [Bool.false_eq_true, false_or, if_neg, not_false_eq_true,
      if_true]
    rw [if_neg (by rintro ⟨ha, hb⟩; exact hb (h_fc ha))]
    simp [h_fail, UCS_LINEAR_FUNC_ZERO, ucs_linear_func_make]

/-- C1 counterexample: with a configuration that takes the receive
buffer-copy branch, the receive-stage estimator fails, yet the
orchestrator returns success — the failure is not propagated. -/
theorem ucp_proto_common_init_caps_recv_status_ignored_counterexample :
    (estRecvFail.buffer_copy_time "recv-copy" UCS_MEMORY_TYPE_HOST
      paramsZcopySend.mem_type UCT_EP_OP_PUT_SHORT).1 =
        UcsStatus.unsupported ∧
    ucp_proto_common_init_caps estRecvFail [] paramsZcopySend perfUnit 0 =
      UcsResult.ok (⟨0, 0, 0, [⟨4, ⟨0, 1⟩, ⟨0, 1⟩⟩]⟩, []) := by
  constructor
  · rfl
  · norm_num [ucp_proto_common_init_caps,
      ucp_proto_common_init_caps_stage_perfs,
      ucp_proto_common_init_caps_send_overhead,
      ucp_proto_common_init_caps_recv_overhead,
      ucp_proto_common_init_base_caps, ucp_proto_init_parallel_stages,
      ucp_proto_parallel_stage_list, ucp_proto_parallel_append_ranges,
      ucp_proto_perf_envelope_make, ucp_proto_perf_envelope_loop,
      ucp_proto_perf_envelope_count_ok, ucp_proto_find_best,
      ucp_proto_find_midpoint, ucs_linear_func_intersect,
      ucs_linear_func_apply, ucs_linear_func_add, ucs_linear_func_compose,
      ucs_linear_func_make, UCS_LINEAR_FUNC_ZERO, ucs_double_to_sizet,
      allocNext, UCP_PROTO_MSGLEN_EPSILON, estRecvFail, paramsZcopySend,
      perfUnit, UCS_MEMORY_TYPE_HOST, UCT_EP_OP_PUT_SHORT,
      ucp_proto_common_add_ppln_range, List.range_succ]

/-- C1 witness: a failing send-copy estimator is propagated, and a failing
receive-copy estimator leaves only the fallback receive overhead. -/
theorem ucp_proto_common_init_caps_estimator_status_witness :
    (paramsHostCopy.flag_remote_access = false ∧
     paramsHostCopy.flag_send_zcopy = false ∧
     paramsHostCopy.flag_rkey_ptr = false ∧
     (estSendFail.buffer_copy_time "send-copy" UCS_MEMORY_TYPE_HOST
       paramsHostCopy.mem_type paramsHostCopy.memtype_op).1 ≠
         UcsStatus.ok ∧
     ucp_proto_common_init_caps estSendFail [] paramsHostCopy perfUnit 0 =
       UcsResult.err (estSendFail.buffer_copy_time "send-copy"
         UCS_MEMORY_TYPE_HOST paramsHostCopy.mem_type
         paramsHostCopy.memtype_op).1) ∧
    (paramsZcopySend.flag_remote_access = false ∧
     (paramsZcopySend.op_flag_fast_cmpl = true →
       paramsZcopySend.flag_response = true) ∧
     paramsZcopySend.flag_recv_zcopy = false ∧
     (estRecvFail.buffer_copy_time "recv-copy" UCS_MEMORY_TYPE_HOST
       (match paramsZcopySend.rkey_mem_type with
        | none => paramsZcopySend.mem_type
        | some t => t) UCT_EP_OP_PUT_SHORT).1 ≠ UcsStatus.ok ∧
     ucp_proto_common_init_caps_recv_overhead estRecvFail paramsZcopySend
       perfUnit 0 = ⟨perfUnit.recv_overhead, 0⟩) :=
  ⟨⟨rfl, rfl, rfl, by decide,
    ucp_proto_common_init_caps_estimator_status.1 estSendFail []
      paramsHostCopy perfUnit 0 rfl rfl rfl rfl (by decide)⟩,
   ⟨rfl, by decide, rfl, by decide,
    ucp_proto_common_init_caps_estimator_status.2 estRecvFail
      paramsZcopySend perfUnit 0 rfl (by decide) rfl (by decide)⟩⟩

/-- C7: the transfer stage's base cost is zero exactly for fast-completion
non-zero-copy sends and otherwise affine with slope `1/bandwidth` and
intercept 0; `latency + sys_latency` is added to the transfer SINGLE
intercept only; and exactly when a response is required or the send is
zero-copy with fast completion, an extra `latency` is added to the
transfer SINGLE intercept and an extra `send_post_overhead` to the send
SINGLE intercept. -/
theorem ucp_proto_common_init_caps_transfer_stage
    (est : ucp_proto_common_estimators)
    (params : ucp_proto_common_init_params_t)
    (perf : ucp_proto_common_tl_perf_t) (reg_md_map : ℕ)
    (so0 : ucs_linear_func_t) (sp xp rp : ucp_proto_perf_range_t)
    (hso : ucp_proto_common_init_caps_send_overhead est params
      reg_md_map = UcsResult.ok so0)
    (hst : ucp_proto_common_init_caps_stage_perfs est params perf
      reg_md_map = UcsResult.ok (sp, xp, rp)) :
    (xp.perf_multi =
      if params.op_flag_fast_cmpl ∧ ¬params.flag_send_zcopy then
        UCS_LINEAR_FUNC_ZERO
      else ucs_linear_func_make 0 (1 / perf.bandwidth)) ∧
    (xp.perf_single = ⟨xp.perf_multi.c + (perf.latency + perf.sys_latency) +
        (if params.flag_response ∨
            (params.op_flag_fast_cmpl ∧ params.flag_send_zcopy) then
          perf.latency
         else 0),
      xp.perf_multi.m⟩) ∧
    (sp.perf_single = ⟨so0.c + perf.send_pre_overhead +
        (if params.flag_response ∨
            (params.op_flag_fast_cmpl ∧ params.flag_send_zcopy) then
          perf.send_post_overhead
         else 0),
      so0.m⟩) ∧
    (sp.perf_multi = ⟨so0.c + perf.send_pre_overhead +
      perf.send_post_overhead, so0.m⟩) := by
  unfold ucp_proto_common_init_caps_stage_perfs at hst
  rw [hso] at hst
  dsimp only at hst
  injection hst with h
  injection h with hsp h'
  injection h' with hxp hrp
  subst hsp
  subst hxp
  by_cases h1 : params.flag_response = true <;>
    by_cases h2 : params.op_flag_fast_cmpl = true <;>
      by_cases h3 : params.flag_send_zcopy = true <;>
        simp [h1, h2, h3, UCS_LINEAR_FUNC_ZERO, ucs_linear_func_make] <;>
          constructor <;> ring

/-- C7 witness: concrete host-copy configuration with response required,
unit bandwidth and zero overheads. -/
theorem ucp_proto_common_init_caps_transfer_stage_witness :
    ucp_proto_common_init_caps_send_overhead estOk paramsHostCopy 0 =
      UcsResult.ok UCS_LINEAR_FUNC_ZERO ∧
    ucp_proto_common_init_caps_stage_perfs estOk paramsHostCopy perfUnit 0 =
      UcsResult.ok
        (⟨0, ⟨0, 0⟩, ⟨0, 0⟩⟩, ⟨0, ⟨0, 1⟩, ⟨0, 1⟩⟩,
         ⟨0, ⟨0, 0⟩, ⟨0, 0⟩⟩) ∧
    ((⟨0, ⟨0, 1⟩, ⟨0, 1⟩⟩ : ucp_proto_perf_range_t).perf_multi =
      if paramsHostCopy.op_flag_fast_cmpl ∧ ¬paramsHostCopy.flag_send_zcopy
      then UCS_LINEAR_FUNC_ZERO
      else ucs_linear_func_make 0 (1 / perfUnit.bandwidth)) ∧
    ((⟨0, ⟨0, 1⟩, ⟨0, 1⟩⟩ : ucp_proto_perf_range_t).perf_single =
      ⟨(⟨0, ⟨0, 1⟩, ⟨0, 1⟩⟩ : ucp_proto_perf_range_t).perf_multi.c +
          (perfUnit.latency + perfUnit.sys_latency) +
          (if paramsHostCopy.flag_response ∨
              (paramsHostCopy.op_flag_fast_cmpl ∧
                paramsHostCopy.flag_send_zcopy) then
            perfUnit.latency
           else 0),
        (⟨0, ⟨0, 1⟩, ⟨0, 1⟩⟩ : ucp_proto_perf_range_t).perf_multi.m⟩) ∧
    ((⟨0, ⟨0, 0⟩, ⟨0, 0⟩⟩ : ucp_proto_perf_range_t).perf_single =
      ⟨UCS_LINEAR_FUNC_ZERO.c + perfUnit.send_pre_overhead +
          (if paramsHostCopy.flag_response ∨
              (paramsHostCopy.op_flag_fast_cmpl ∧
                paramsHostCopy.flag_send_zcopy) then
            perfUnit.send_post_overhead
           else 0),
        UCS_LINEAR_FUNC_ZERO.m⟩) ∧
    ((⟨0, ⟨0, 0⟩, ⟨0, 0⟩⟩ : ucp_proto_perf_range_t).perf_multi =
      ⟨UCS_LINEAR_FUNC_ZERO.c + perfUnit.send_pre_overhead +
        perfUnit.send_post_overhead, UCS_LINEAR_FUNC_ZERO.m⟩) := by
  have hso : ucp_proto_common_init_caps_send_overhead estOk paramsHostCopy
      0 = UcsResult.ok UCS_LINEAR_FUNC_ZERO := rfl
  have hst : ucp_proto_common_init_caps_stage_perfs estOk paramsHostCopy
      perfUnit 0 =
      UcsResult.ok
        (⟨0, ⟨0, 0⟩, ⟨0, 0⟩⟩, ⟨0, ⟨0, 1⟩, ⟨0, 1⟩⟩,
         ⟨0, ⟨0, 0⟩, ⟨0, 0⟩⟩) := by
    norm_num [ucp_proto_common_init_caps_stage_perfs,
      ucp_proto_common_init_caps_send_overhead,
      ucp_proto_common_init_caps_recv_overhead, estOk, paramsHostCopy,
      perfUnit, UCS_LINEAR_FUNC_ZERO, ucs_linear_func_make,
      UCS_MEMORY_TYPE_HOST, UCT_EP_OP_PUT_SHORT]
  have hmain := ucp_proto_common_init_caps_transfer_stage estOk
    paramsHostCopy perfUnit 0 UCS_LINEAR_FUNC_ZERO
    ⟨0, ⟨0, 0⟩, ⟨0, 0⟩⟩ ⟨0, ⟨0, 1⟩, ⟨0, 1⟩⟩ ⟨0, ⟨0, 0⟩, ⟨0, 0⟩⟩ hso hst
  exact ⟨hso, hst, hmain.1, hmain.2.1, hmain.2.2.1, hmain.2.2.2⟩

/-- The running best returned by the best-candidate scan satisfies any
predicate holding for the initial best and every active index. -/
theorem ucp_proto_find_best_prop (perf : List ucs_linear_func_t) (x : ℚ)
    (cv : Bool) (P : ℕ → Prop) :
    ∀ (active : List ℕ) (init : Option (ℕ × ℚ)),
      (∀ j s, init = some (j, s) → P j) → (∀ j ∈ active, P j) →
      ∀ bi r, ucp_proto_find_best perf x cv active init = some (bi, r) →
        P bi := by
  intro active
  induction active with
  | nil =>
      intro init hinit _ bi r h
      exact hinit bi r h
  | cons i rest ih =>
      intro init hinit hact bi r h
      simp only [ucp_proto_find_best] at h
      cases init with
      | none =>
          exact ih _ (fun j s hj => by
              injection hj with hj'
              injection hj' with hj1 hj2
              exact hj1 ▸ hact i (List.mem_cons_self i rest))
            (fun j hj => hact j (List.mem_cons_of_mem i hj)) bi r h
      | some p =>
          rcases p with ⟨bi0, br0⟩
          dsimp only at h
          split at h
          · exact ih _ (fun j s hj => by
                injection hj with hj'
                injection hj' with hj1 hj2
                exact hj1 ▸ hact i (List.mem_cons_self i rest))
              (fun j hj => hact j (List.mem_cons_of_mem i hj)) bi r h
          · exact ih _ (fun j s hj => by
                injection hj with hj'
                injection hj' with hj1 hj2
                exact hj1 ▸ hinit bi0 br0 rfl)
              (fun j hj => hact j (List.mem_cons_of_mem i hj)) bi r h

/-- The midpoint scan never increases the running midpoint. -/
theorem ucp_proto_find_midpoint_le (perf : List ucs_linear_func_t)
    (best : ucs_linear_func_t) (start : ℕ) :
    ∀ (l : List ℕ) (m : ℕ),
      ucp_proto_find_midpoint perf best start l m ≤ m := by
  intro l
  induction l with
  | nil =>
      intro m
      simp [ucp_proto_find_midpoint]
  | cons i rest ih =>
      intro m
      simp only [ucp_proto_find_midpoint]
      refine le_trans (ih _) ?_
      cases hint : ucs_linear_func_intersect
          (perf.getD i UCS_LINEAR_FUNC_ZERO) best with
      | none => exact le_refl m
      | some xi =>
          dsimp only
          split
          · exact min_le_right _ _
          · exact le_refl m

/-- A truncated abscissa strictly after `start` is at least `start`. -/
theorem ucs_double_to_sizet_ge (start : ℕ) (x : ℚ)
    (h : (start : ℚ) < x) : start ≤ ucs_double_to_sizet x := by
  have h1 : (start : ℤ) ≤ ⌊x⌋ := Int.le_floor.mpr (by exact_mod_cast h.le)
  unfold ucs_double_to_sizet
  omega

/-- The midpoint scan keeps the running midpoint at or after `start`. -/
theorem ucp_proto_find_midpoint_ge (perf : List ucs_linear_func_t)
    (best : ucs_linear_func_t) (start : ℕ) :
    ∀ (l : List ℕ) (m : ℕ), start ≤ m →
      start ≤ ucp_proto_find_midpoint perf best start l m := by
  intro l
  induction l with
  | nil =>
      intro m hm
      simpa [ucp_proto_find_midpoint] using hm
  | cons i rest ih =>
      intro m hm
      simp only [ucp_proto_find_midpoint]
      refine ih _ ?_
      cases hint : ucs_linear_func_intersect
          (perf.getD i UCS_LINEAR_FUNC_ZERO) best with
      | none => exact hm
      | some xi =>
          dsimp only
          split
          · next hlt => exact le_min (ucs_double_to_sizet_ge start xi hlt) hm
          · exact hm

/-- Index bookkeeping of the envelope loop: on success the emitted tail's
candidate indices are drawn from the active set without repetition, so the
tail is no longer than the active set. -/
theorem ucp_proto_perf_envelope_loop_indices (perf : List ucs_linear_func_t)
    (re : ℕ) (cv : Bool) :
    ∀ (fuel : ℕ) (active : List ℕ) (start : ℕ)
      (acc elems : List ucp_proto_perf_envelope_elem_t) (al al' : List Bool),
      ucp_proto_perf_envelope_loop perf re cv fuel active start acc al =
        UcsResult.ok (elems, al') →
      active.Nodup →
      ∃ tail, elems = acc ++ tail ∧
        (∀ e ∈ tail, e.index ∈ active) ∧
        (tail.map (fun e => e.index)).Nodup ∧
        tail.length ≤ active.length := by
  intro fuel
  induction fuel with
  | zero =>
      intro active start acc elems al al' h hnd
      exact UcsResult.noConfusion h
  | succ n ih =>
      intro active start acc elems al al' h hnd
      simp only [ucp_proto_perf_envelope_loop] at h
      rcases hfb : ucp_proto_find_best perf
          ((start : ℚ) + UCP_PROTO_MSGLEN_EPSILON) cv active none with
        _ | ⟨bi, r⟩
      · rw [hfb] at h
        exact UcsResult.noConfusion h
      · rw [hfb] at h
        dsimp only at h
        have hbi : bi ∈ active :=
          ucp_proto_find_best_prop perf _ cv (fun j => j ∈ active) active
            none (fun j s hj => Option.noConfusion hj) (fun j hj => hj)
            bi r hfb
        rcases hal : allocNext al with ⟨b, al1⟩
        rw [hal] at h
        cases b with
        | false => exact UcsResult.noConfusion h
        | true =>
            dsimp only at h
            by_cases hlt : ucp_proto_find_midpoint perf
                (perf.getD bi UCS_LINEAR_FUNC_ZERO) start
                (active.erase bi) re < re
            · rw [if_pos hlt] at h
              obtain ⟨tail', heq, hidx, hnodup, hlen⟩ :=
                ih (active.erase bi) _ _ elems al1 al' h (hnd.erase bi)
              refine ⟨⟨bi, ucp_proto_find_midpoint perf
                  (perf.getD bi UCS_LINEAR_FUNC_ZERO) start
                  (active.erase bi) re⟩ :: tail', ?_, ?_, ?_, ?_⟩
              · rw [heq, List.append_assoc]
                rfl
              · intro e he
                rcases List.mem_cons.mp he with he1 | he2
                · rw [he1]
                  exact hbi
                · exact List.mem_of_mem_erase (hidx e he2)
              · rw [List.map_cons]
                refine List.nodup_cons.mpr ⟨?_, hnodup⟩
                intro hmem
                rcases List.mem_map.mp hmem with ⟨e, he, hei⟩
                exact (hnd.not_mem_erase) (hei ▸ hidx e he)
              · have h1 : (active.erase bi).length = active.length - 1 :=
                  List.length_erase_of_mem hbi
                have h2 : 0 < active.length := List.length_pos_of_mem hbi
                simp only [List.length_cons]
                omega
            · rw [if_neg hlt] at h
              injection h with h1
              injection h1 with h2 h3
              refine ⟨[⟨bi, ucp_proto_find_midpoint perf
                  (perf.getD bi UCS_LINEAR_FUNC_ZERO) start
                  (active.erase bi) re⟩], h2.symm, ?_, ?_, ?_⟩
              · intro e he
                rcases List.mem_cons.mp he with he1 | he2
                · rw [he1]
                  exact hbi
                · exact absurd he2 (List.not_mem_nil e)
              · simp
              · simpa using List.length_pos_of_mem hbi

/-- Range bookkeeping of the envelope loop: on success the emitted tail is
non-empty, its `max_length` values lie in `[start, range_end]` and increase
strictly, and the last one equals `range_end`. -/
theorem ucp_proto_perf_envelope_loop_ranges (perf : List ucs_linear_func_t)
    (re : ℕ) (cv : Bool) :
    ∀ (fuel : ℕ) (active : List ℕ) (start : ℕ)
      (acc elems : List ucp_proto_perf_envelope_elem_t) (al al' : List Bool),
      ucp_proto_perf_envelope_loop perf re cv fuel active start acc al =
        UcsResult.ok (elems, al') →
      start ≤ re →
      ∃ tail, elems = acc ++ tail ∧ tail ≠ [] ∧
        (∀ e ∈ tail, start ≤ e.max_length ∧ e.max_length ≤ re) ∧
        (tail.map (fun e => e.max_length)).Chain' (· < ·) ∧
        (tail.map (fun e => e.max_length)).getLast? = some re := by
  intro fuel
  induction fuel with
  | zero =>
      intro active start acc elems al al' h hsr
      exact UcsResult.noConfusion h
  | succ n ih =>
      intro active start acc elems al al' h hsr
      simp only [ucp_proto_perf_envelope_loop] at h
      rcases hfb : ucp_proto_find_best perf
          ((start : ℚ) + UCP_PROTO_MSGLEN_EPSILON) cv active none with
        _ | ⟨bi, r⟩
      · rw [hfb] at h
        exact UcsResult.noConfusion h
      · rw [hfb] at h
        dsimp only at h
        rcases hal : allocNext al with ⟨b, al1⟩
        rw [hal] at h
        cases b with
        | false => exact UcsResult.noConfusion h
        | true =>
            dsimp only at h
            have hmid_ge : start ≤ ucp_proto_find_midpoint perf
                (perf.getD bi UCS_LINEAR_FUNC_ZERO) start
                (active.erase bi) re :=
              ucp_proto_find_midpoint_ge perf _ start _ re hsr
            have hmid_le : ucp_proto_find_midpoint perf
                (perf.getD bi UCS_LINEAR_FUNC_ZERO) start
                (active.erase bi) re ≤ re :=
              ucp_proto_find_midpoint_le perf _ start _ re
            by_cases hlt : ucp_proto_find_midpoint perf
                (perf.getD bi UCS_LINEAR_FUNC_ZERO) start
                (active.erase bi) re < re
            · rw [if_pos hlt] at h
              obtain ⟨tail', heq, hne, hbounds, hchain, hlast⟩ :=
                ih (active.erase bi) _ _ elems al1 al' h (by omega)
              refine ⟨⟨bi, ucp_proto_find_midpoint perf
                  (perf.getD bi UCS_LINEAR_FUNC_ZERO) start
                  (active.erase bi) re⟩ :: tail', ?_, by simp, ?_, ?_, ?_⟩
              · rw [heq, List.append_assoc]
                rfl
              · intro e he
                rcases List.mem_cons.mp he with he1 | he2
                · rw [he1]
                  exact ⟨hmid_ge, hmid_le⟩
                · obtain ⟨hb1, hb2⟩ := hbounds e he2
                  exact ⟨by omega, hb2⟩
              · rw [List.map_cons]
                refine List.chain'_cons'.mpr ⟨?_, hchain⟩
                intro y hy
                have hy' := List.mem_of_mem_head? hy
                rcases List.mem_map.mp hy' with ⟨e, he, hei⟩
                have hb := (hbounds e he).1
                have hei' : e.max_length = y := hei
                show ucp_proto_find_midpoint perf
                  (perf.getD bi UCS_LINEAR_FUNC_ZERO) start
                  (active.erase bi) re < y
                omega
              · rw [List.map_cons]
                rcases List.exists_cons_of_ne_nil hne with ⟨e0, t0, rfl⟩
                rw [List.map_cons] at hlast ⊢
                rw [List.getLast?_cons_cons]
                exact hlast
            · rw [if_neg hlt] at h
              injection h with h1
              injection h1 with h2 h3
              have hmid_eq : ucp_proto_find_midpoint perf
                  (perf.getD bi UCS_LINEAR_FUNC_ZERO) start
                  (active.erase bi) re = re := by omega
              refine ⟨[⟨bi, ucp_proto_find_midpoint perf
                  (perf.getD bi UCS_LINEAR_FUNC_ZERO) start
                  (active.erase bi) re⟩], h2.symm, by simp, ?_, ?_, ?_⟩
              · intro e he
                rcases List.mem_cons.mp he with he1 | he2
                · rw [he1]
                  exact ⟨hmid_ge, hmid_le⟩
                · exact absurd he2 (List.not_mem_nil e)
              · simp
              · simp only [List.map_cons, List.map_nil,
                  List.getLast?_singleton, Option.some.injEq]
                exact hmid_eq

/-- Closed form of the range-emitting loop of the parallel-stage composer:
it appends one capability range per envelope element and its final cursor
is the fold of `max_length + 1` over the elements. -/
theorem ucp_proto_parallel_append_ranges_eq
    (bias_func sum_perf : ucs_linear_func_t)
    (stage_list : List ucs_linear_func_t) :
    ∀ (elems : List ucp_proto_perf_envelope_elem_t)
      (caps : ucp_proto_caps_t) (cursor : ℕ),
      ucp_proto_parallel_append_ranges bias_func sum_perf stage_list elems
        caps cursor =
      (⟨caps.cfg_thresh, caps.cfg_priority, caps.min_length,
        caps.ranges ++ elems.map (fun e =>
          ⟨e.max_length, ucs_linear_func_compose bias_func sum_perf,
           ucs_linear_func_compose bias_func
             (stage_list.getD e.index UCS_LINEAR_FUNC_ZERO)⟩)⟩,
       List.foldl (fun _ e => e.max_length + 1) cursor elems) := by
  intro elems
  induction elems with
  | nil =>
      intro caps cursor
      simp [ucp_proto_parallel_append_ranges]
  | cons e rest ih =>
      intro caps cursor
      rw [ucp_proto_parallel_append_ranges, ih, List.map_cons,
        List.foldl_cons]
      simp

/-- The cursor fold equals one past the last emitted `max_length`. -/
theorem ucp_proto_cursor_foldl_eq (y : ℕ) :
    ∀ (l : List ucp_proto_perf_envelope_elem_t) (x : ℕ),
      (l.map (fun e => e.max_length)).getLast? = some y →
      List.foldl (fun _ e => e.max_length + 1) x l = y + 1 := by
  intro l
  induction l with
  | nil =>
      intro x h
      exact absurd h (by simp)
  | cons e rest ih =>
      intro x h
      cases rest with
      | nil =>
          simp only [List.map_cons, List.map_nil, List.getLast?_singleton,
            Option.some.injEq] at h
          simp [h]
      | cons e2 t =>
          rw [List.map_cons, List.map_cons, List.getLast?_cons_cons] at h
          rw [List.foldl_cons]
          exact ih _ (by rw [List.map_cons]; exact h)

/-- C2: on every successful envelope run over `[range_start, range_end]`
with `range_start ≤ range_end`, the emitted `max_length` values are
strictly increasing, lie inside the interval, and end exactly at
`range_end`; consequently the parallel-stage composer's range-emitting
loop appends one capability range per element and its final cursor is
`range_end + 1`. -/
theorem ucp_proto_perf_envelope_make_coverage (al : List Bool)
    (perf_list : List ucs_linear_func_t) (range_start range_end : ℕ)
    (cv : Bool) (elems : List ucp_proto_perf_envelope_elem_t)
    (al' : List Bool) (hrs : range_start ≤ range_end)
    (hok : ucp_proto_perf_envelope_make al perf_list range_start range_end
      cv = UcsResult.ok (elems, al')) :
    elems ≠ [] ∧
    (elems.map (fun e => e.max_length)).Chain' (· < ·) ∧
    (∀ e ∈ elems, range_start ≤ e.max_length ∧
      e.max_length ≤ range_end) ∧
    (elems.map (fun e => e.max_length)).getLast? = some range_end ∧
    (∀ (bias_func sum_perf : ucs_linear_func_t)
        (stage_list : List ucs_linear_func_t) (caps : ucp_proto_caps_t),
      (ucp_proto_parallel_append_ranges bias_func sum_perf stage_list
        elems caps range_start).2 = range_end + 1 ∧
      (ucp_proto_parallel_append_ranges bias_func sum_perf stage_list
        elems caps range_start).1.ranges.length =
        caps.ranges.length + elems.length) := by
  unfold ucp_proto_perf_envelope_make at hok
  split at hok
  case isFalse => exact UcsResult.noConfusion hok
  case isTrue hc =>
    obtain ⟨tail, heq, hne, hbounds, hchain, hlast⟩ :=
      ucp_proto_perf_envelope_loop_ranges perf_list range_end cv
        perf_list.length (List.range perf_list.length) range_start []
        elems al al' hok hrs
    rw [List.nil_append] at heq
    subst heq
    refine ⟨hne, hchain, hbounds, hlast, ?_⟩
    intro bias_func sum_perf stage_list caps
    rw [ucp_proto_parallel_append_ranges_eq]
    constructor
    · exact ucp_proto_cursor_foldl_eq range_end elems range_start hlast
    · simp

/-- C2 witness: a two-candidate lower envelope over `[0, 20]`. -/
theorem ucp_proto_perf_envelope_make_coverage_witness :
    (0 ≤ 20 ∧
      ucp_proto_perf_envelope_make [] [⟨10, 0⟩, ⟨0, 1⟩] 0 20 true =
        UcsResult.ok ([⟨1, 10⟩, ⟨0, 20⟩], [])) ∧
    (([⟨1, 10⟩, ⟨0, 20⟩] :
        List ucp_proto_perf_envelope_elem_t) ≠ [] ∧
      (([⟨1, 10⟩, ⟨0, 20⟩] :
        List ucp_proto_perf_envelope_elem_t).map
          (fun e => e.max_length)).Chain' (· < ·) ∧
      (∀ e ∈ ([⟨1, 10⟩, ⟨0, 20⟩] :
          List ucp_proto_perf_envelope_elem_t),
        0 ≤ e.max_length ∧ e.max_length ≤ 20) ∧
      (([⟨1, 10⟩, ⟨0, 20⟩] :
        List ucp_proto_perf_envelope_elem_t).map
          (fun e => e.max_length)).getLast? = some 20 ∧
      (∀ (bias_func sum_perf : ucs_linear_func_t)
          (stage_list : List ucs_linear_func_t) (caps : ucp_proto_caps_t),
        (ucp_proto_parallel_append_ranges bias_func sum_perf stage_list
          [⟨1, 10⟩, ⟨0, 20⟩] caps 0).2 = 20 + 1 ∧
        (ucp_proto_parallel_append_ranges bias_func sum_perf stage_list
          [⟨1, 10⟩, ⟨0, 20⟩] caps 0).1.ranges.length =
          caps.ranges.length +
            ([⟨1, 10⟩, ⟨0, 20⟩] :
              List ucp_proto_perf_envelope_elem_t).length)) := by
  have hok : ucp_proto_perf_envelope_make [] [⟨10, 0⟩, ⟨0, 1⟩] 0 20 true =
      UcsResult.ok ([⟨1, 10⟩, ⟨0, 20⟩], []) := by
    norm_num [ucp_proto_perf_envelope_make, ucp_proto_perf_envelope_loop,
      ucp_proto_perf_envelope_count_ok, ucp_proto_find_best,
      ucp_proto_find_midpoint, ucs_linear_func_intersect,
      ucs_linear_func_apply, ucs_linear_func_make, UCS_LINEAR_FUNC_ZERO,
      ucs_double_to_sizet, allocNext, UCP_PROTO_MSGLEN_EPSILON,
      List.range_succ]
    all_goals decide
  exact ⟨⟨by omega, hok⟩,
    ucp_proto_perf_envelope_make_coverage [] [⟨10, 0⟩, ⟨0, 1⟩] 0 20 true
      [⟨1, 10⟩, ⟨0, 20⟩] [] (by omega) hok⟩

/-- C10: in every successful envelope, each candidate index appears at
most once, the number of elements never exceeds the number of candidates,
and adjacent elements name different candidates. -/
theorem ucp_proto_perf_envelope_make_distinct (al : List Bool)
    (perf_list : List ucs_linear_func_t) (range_start range_end : ℕ)
    (cv : Bool) (elems : List ucp_proto_perf_envelope_elem_t)
    (al' : List Bool)
    (hok : ucp_proto_perf_envelope_make al perf_list range_start range_end
      cv = UcsResult.ok (elems, al')) :
    (elems.map (fun e => e.index)).Nodup ∧
    elems.length ≤ perf_list.length ∧
    elems.Chain' (fun a b => a.index ≠ b.index) := by
  unfold ucp_proto_perf_envelope_make at hok
  split at hok
  case isFalse => exact UcsResult.noConfusion hok
  case isTrue hc =>
    obtain ⟨tail, heq, hidx, hnodup, hlen⟩ :=
      ucp_proto_perf_envelope_loop_indices perf_list range_end cv
        perf_list.length (List.range perf_list.length) range_start []
        elems al al' hok (List.nodup_range _)
    rw [List.nil_append] at heq
    subst heq
    refine ⟨hnodup, by simpa using hlen, ?_⟩
    rw [show (fun a b : ucp_proto_perf_envelope_elem_t =>
      a.index ≠ b.index) = fun a b => (fun e => e.index) a ≠
        (fun e => e.index) b from rfl, ← List.chain'_map]
    exact List.Pairwise.chain' hnodup

/-- C10 witness: the two-candidate lower envelope over `[0, 20]` names
each candidate once. -/
theorem ucp_proto_perf_envelope_make_distinct_witness :
    ucp_proto_perf_envelope_make [] [⟨10, 0⟩, ⟨0, 1⟩] 0 20 true =
      UcsResult.ok ([⟨1, 10⟩, ⟨0, 20⟩], []) ∧
    ((([⟨1, 10⟩, ⟨0, 20⟩] :
        List ucp_proto_perf_envelope_elem_t).map
          (fun e => e.index)).Nodup ∧
      ([⟨1, 10⟩, ⟨0, 20⟩] :
        List ucp_proto_perf_envelope_elem_t).length ≤
        ([⟨10, 0⟩, ⟨0, 1⟩] : List ucs_linear_func_t).length ∧
      ([⟨1, 10⟩, ⟨0, 20⟩] :
        List ucp_proto_perf_envelope_elem_t).Chain'
          (fun a b => a.index ≠ b.index)) := by
  have hok : ucp_proto_perf_envelope_make [] [⟨10, 0⟩, ⟨0, 1⟩] 0 20 true =
      UcsResult.ok ([⟨1, 10⟩, ⟨0, 20⟩], []) := by
    norm_num [ucp_proto_perf_envelope_make, ucp_proto_perf_envelope_loop,
      ucp_proto_perf_envelope_count_ok, ucp_proto_find_best,
      ucp_proto_find_midpoint, ucs_linear_func_intersect,
      ucs_linear_func_apply, ucs_linear_func_make, UCS_LINEAR_FUNC_ZERO,
      ucs_double_to_sizet, allocNext, UCP_PROTO_MSGLEN_EPSILON,
      List.range_succ]
    all_goals decide
  exact ⟨hok,
    ucp_proto_perf_envelope_make_distinct [] [⟨10, 0⟩, ⟨0, 1⟩] 0 20 true
      [⟨1, 10⟩, ⟨0, 20⟩] [] hok⟩

/-- Pointwise bias scaling of the composed cost: composing with
`ucs_linear_func_make 0 (1 - b)` scales the bias-0 composition by
`(1 - b)` at every size. -/
theorem ucs_linear_func_compose_bias (b : ℚ) (f : ucs_linear_func_t)
    (x : ℚ) :
    ucs_linear_func_apply
      (ucs_linear_func_compose (ucs_linear_func_make 0 (1 - b)) f) x =
    (1 - b) * ucs_linear_func_apply
      (ucs_linear_func_compose (ucs_linear_func_make 0 (1 - 0)) f) x := by
  simp [ucs_linear_func_apply, ucs_linear_func_compose,
    ucs_linear_func_make]
  ring

/-- Mapping two functions over the same list yields `Forall₂`-related
lists when the functions are pointwise related on the list. -/
theorem list_forall2_map {α β γ : Type} (R : β → γ → Prop) (f : α → β)
    (g : α → γ) :
    ∀ l : List α, (∀ a ∈ l, R (f a) (g a)) →
      List.Forall₂ R (l.map f) (l.map g) := by
  intro l
  induction l with
  | nil =>
      intro _
      exact List.Forall₂.nil
  | cons a t ih =>
      intro h
      simp only [List.map_cons]
      exact List.Forall₂.cons (h a (List.mem_cons_self a t))
        (ih fun a' ha' => h a' (List.mem_cons_of_mem a ha'))

/-- C3: whenever the parallel-stage composer succeeds with bias 0, it also
succeeds with any bias `b` consuming the same allocations, appending
ranges with identical boundaries whose SINGLE and MULTI costs are
`(1 - b)` times the bias-0 costs at every message size. -/
theorem ucp_proto_init_parallel_stages_bias_scaling (al : List Bool)
    (rs re fs : ℕ) (b : ℚ) (stages : List ucp_proto_perf_range_t)
    (caps : ucp_proto_caps_t) (al' : List Bool) (c0 : ucp_proto_caps_t)
    (h0 : ucp_proto_init_parallel_stages al rs re fs 0 stages caps =
      (UcsResult.ok al', c0)) :
    (ucp_proto_init_parallel_stages al rs re fs b stages caps).1 =
      UcsResult.ok al' ∧
    List.Forall₂ (fun rb r0 =>
        rb.max_length = r0.max_length ∧
        (∀ x : ℚ, ucs_linear_func_apply rb.perf_single x =
          (1 - b) * ucs_linear_func_apply r0.perf_single x) ∧
        (∀ x : ℚ, ucs_linear_func_apply rb.perf_multi x =
          (1 - b) * ucs_linear_func_apply r0.perf_multi x))
      ((ucp_proto_init_parallel_stages al rs re fs b stages
        caps).2.ranges.drop caps.ranges.length)
      (c0.ranges.drop caps.ranges.length) := by
  unfold ucp_proto_init_parallel_stages at h0 ⊢
  rcases hsl : ucp_proto_parallel_stage_list fs stages UCS_LINEAR_FUNC_ZERO
      [] al with ⟨stage_list, sum_perf, al1⟩ | s | _
  · rw [hsl] at h0
    dsimp only at h0 ⊢
    rcases henv : ucp_proto_perf_envelope_make al1 stage_list rs re false
        with ⟨concave, al2⟩ | s | _
    · rw [henv] at h0
      dsimp only at h0 ⊢
      rw [ucp_proto_parallel_append_ranges_eq] at h0 ⊢
      dsimp only at h0 ⊢
      split at h0
      case isFalse =>
          injection h0 with h1 h2
          exact UcsResult.noConfusion h1
      case isTrue hcur =>
          injection h0 with h1 h2
          injection h1 with h1'
          rw [if_pos hcur]
          refine ⟨by rw [h1'], ?_⟩
          rw [← h2]
          dsimp only
          rw [List.drop_left, List.drop_left]
          refine list_forall2_map _ _ _ concave ?_
          intro e _
          refine ⟨rfl, ?_, ?_⟩
          · intro x
            exact ucs_linear_func_compose_bias b sum_perf x
          · intro x
            exact ucs_linear_func_compose_bias b
              (stage_list.getD e.index UCS_LINEAR_FUNC_ZERO) x
    · rw [henv] at h0
      dsimp only at h0
      injection h0 with h1 h2
      exact UcsResult.noConfusion h1
    · rw [henv] at h0
      dsimp only at h0
      injection h0 with h1 h2
      exact UcsResult.noConfusion h1
  · rw [hsl] at h0
    dsimp only at h0
    injection h0 with h1 h2
    exact UcsResult.noConfusion h1
  · rw [hsl] at h0
    dsimp only at h0
    injection h0 with h1 h2
    exact UcsResult.noConfusion h1

/-- C3 witness: composing `stageA` and `stageB` over `[0, 8]` with bias
`1/2` halves both costs of each appended range compared to bias 0. -/
theorem ucp_proto_init_parallel_stages_bias_scaling_witness :
    (ucp_proto_init_parallel_stages [] 0 8 8 0 [stageA, stageB] capsEmpty =
      (UcsResult.ok [], capsBias0)) ∧
    ((ucp_proto_init_parallel_stages [] 0 8 8 (1/2) [stageA, stageB]
        capsEmpty).1 = UcsResult.ok [] ∧
      List.Forall₂ (fun rb r0 =>
          rb.max_length = r0.max_length ∧
          (∀ x : ℚ, ucs_linear_func_apply rb.perf_single x =
            (1 - 1/2) * ucs_linear_func_apply r0.perf_single x) ∧
          (∀ x : ℚ, ucs_linear_func_apply rb.perf_multi x =
            (1 - 1/2) * ucs_linear_func_apply r0.perf_multi x))
        ((ucp_proto_init_parallel_stages [] 0 8 8 (1/2) [stageA, stageB]
          capsEmpty).2.ranges.drop capsEmpty.ranges.length)
        (capsBias0.ranges.drop capsEmpty.ranges.length)) := by
  have h0 : ucp_proto_init_parallel_stages [] 0 8 8 0 [stageA, stageB]
      capsEmpty = (UcsResult.ok [], capsBias0) := by
    norm_num [ucp_proto_init_parallel_stages,
      ucp_proto_parallel_stage_list, ucp_proto_parallel_append_ranges,
      ucp_proto_perf_envelope_make, ucp_proto_perf_envelope_loop,
      ucp_proto_perf_envelope_count_ok, ucp_proto_find_best,
      ucp_proto_find_midpoint, ucs_linear_func_intersect,
      ucs_linear_func_apply, ucs_linear_func_add, ucs_linear_func_compose,
      ucs_linear_func_make, UCS_LINEAR_FUNC_ZERO, ucs_double_to_sizet,
      allocNext, UCP_PROTO_MSGLEN_EPSILON, stageA, stageB, capsEmpty,
      capsBias0, List.range_succ]
    all_goals norm_num [Int.floor_eq_iff]
  exact ⟨h0, ucp_proto_init_parallel_stages_bias_scaling [] 0 8 8 (1/2)
    [stageA, stageB] capsEmpty [] capsBias0 h0⟩

/-- C4: two affine candidates with differing slopes whose unique
intersection abscissa `p` lies strictly inside `(range_start, range_end)`
produce exactly two envelope elements: first the winner at the sample
point `range_start + 0.5` under the rule
"(candidate.value < best.value) == convex" with `max_length = floor(p)`,
then the other candidate with `max_length = range_end`. -/
theorem ucp_proto_perf_envelope_make_two_candidates
    (f g : ucs_linear_func_t) (rs re : ℕ) (cv : Bool) (p : ℚ)
    (hm : f.m ≠ g.m)
    (hp : p = (g.c - f.c) / (f.m - g.m))
    (h1 : (rs : ℚ) < p) (h2 : p < (re : ℚ)) :
    ∃ w r, ucp_proto_find_best [f, g]
        ((rs : ℚ) + UCP_PROTO_MSGLEN_EPSILON) cv [0, 1] none =
        some (w, r) ∧
      ucp_proto_perf_envelope_make [] [f, g] rs re cv =
        UcsResult.ok ([⟨w, ucs_double_to_sizet p⟩, ⟨1 - w, re⟩], []) := by
  have h0p : (0 : ℚ) < p := lt_of_le_of_lt (Nat.cast_nonneg rs) h1
  have hfl_nonneg : (0 : ℤ) ≤ ⌊p⌋ := Int.floor_nonneg.mpr h0p.le
  have hfl_int : ⌊p⌋ < (re : ℤ) := Int.floor_lt.mpr (by exact_mod_cast h2)
  have hfl_lt : ucs_double_to_sizet p < re := by
    unfold ucs_double_to_sizet
    omega
  have hcount : ucp_proto_perf_envelope_make [] [f, g] rs re cv =
      ucp_proto_perf_envelope_loop [f, g] re cv 2 [0, 1] rs [] [] := rfl
  have hfb2 : ∀ y : ℚ, ucp_proto_find_best [f, g] y cv [0] none =
      some (0, ucs_linear_func_apply f y) := by
    intro y
    simp only [ucp_proto_find_best, List.getD_cons_zero]
  have hfb3 : ∀ y : ℚ, ucp_proto_find_best [f, g] y cv [1] none =
      some (1, ucs_linear_func_apply g y) := by
    intro y
    simp only [ucp_proto_find_best, List.getD_cons_succ,
      List.getD_cons_zero]
  by_cases hw : decide (ucs_linear_func_apply g
      ((rs : ℚ) + UCP_PROTO_MSGLEN_EPSILON) <
      ucs_linear_func_apply f ((rs : ℚ) + UCP_PROTO_MSGLEN_EPSILON)) = cv
  · have hfb : ucp_proto_find_best [f, g]
        ((rs : ℚ) + UCP_PROTO_MSGLEN_EPSILON) cv [0, 1] none =
        some (1, ucs_linear_func_apply g
          ((rs : ℚ) + UCP_PROTO_MSGLEN_EPSILON)) := by
      simp only [ucp_proto_find_best, List.getD_cons_zero,
        List.getD_cons_succ]
      rw [if_pos hw]
    have hq : ucs_linear_func_intersect f g = some p := by
      rw [ucs_linear_func_intersect, if_neg hm, ← hp]
    refine ⟨1, ucs_linear_func_apply g
      ((rs : ℚ) + UCP_PROTO_MSGLEN_EPSILON), hfb, ?_⟩
    have hmin : min (ucs_double_to_sizet p) re = ucs_double_to_sizet p :=
      min_eq_left hfl_lt.le
    rw [hcount]
    simp only [ucp_proto_perf_envelope_loop, hfb, hfb2,
      ucp_proto_find_midpoint, List.getD_cons_zero, List.getD_cons_succ,
      hq, allocNext,
      show ([0, 1] : List ℕ).erase 1 = [0] from rfl,
      show ([0] : List ℕ).erase 0 = ([] : List ℕ) from rfl,
      h1, hfl_lt, hmin, if_true, ite_true, lt_self_iff_false, if_false,
      ite_false, List.cons_append, List.nil_append, Nat.sub_self]
  · have hfb : ucp_proto_find_best [f, g]
        ((rs : ℚ) + UCP_PROTO_MSGLEN_EPSILON) cv [0, 1] none =
        some (0, ucs_linear_func_apply f
          ((rs : ℚ) + UCP_PROTO_MSGLEN_EPSILON)) := by
      simp only [ucp_proto_find_best, List.getD_cons_zero,
        List.getD_cons_succ]
      rw [if_neg hw]
    have hq : ucs_linear_func_intersect g f = some p := by
      rw [ucs_linear_func_intersect, if_neg (Ne.symm hm), hp]
      congr 1
      rw [← neg_sub g.c f.c, ← neg_sub f.m g.m, neg_div_neg_eq]
    refine ⟨0, ucs_linear_func_apply f
      ((rs : ℚ) + UCP_PROTO_MSGLEN_EPSILON), hfb, ?_⟩
    have hmin : min (ucs_double_to_sizet p) re = ucs_double_to_sizet p :=
      min_eq_left hfl_lt.le
    rw [hcount]
    simp only [ucp_proto_perf_envelope_loop, hfb, hfb3,
      ucp_proto_find_midpoint, List.getD_cons_zero, List.getD_cons_succ,
      hq, allocNext,
      show ([0, 1] : List ℕ).erase 0 = [1] from rfl,
      show ([1] : List ℕ).erase 1 = ([] : List ℕ) from rfl,
      h1, hfl_lt, hmin, if_true, ite_true, lt_self_iff_false, if_false,
      ite_false, List.cons_append, List.nil_append, Nat.sub_zero]

/-- C4 witness: the constant candidate `10` and the line `x` intersect at
`p = 10` inside `(0, 20)`; the lower envelope emits the line first up to
`10`, then the constant up to `20`. -/
theorem ucp_proto_perf_envelope_make_two_candidates_witness :
    ∃ w r, ucp_proto_find_best [⟨10, 0⟩, ⟨0, 1⟩]
        (((0 : ℕ) : ℚ) + UCP_PROTO_MSGLEN_EPSILON) true [0, 1] none =
        some (w, r) ∧
      ucp_proto_perf_envelope_make [] [⟨10, 0⟩, ⟨0, 1⟩] 0 20 true =
        UcsResult.ok ([⟨w, ucs_double_to_sizet 10⟩, ⟨1 - w, 20⟩], []) :=
  ucp_proto_perf_envelope_make_two_candidates ⟨10, 0⟩ ⟨0, 1⟩ 0 20 true 10
    (by norm_num) (by norm_num) (by norm_num) (by norm_num)
